import Mathlib

/-!
# Verification of the Quabo-AutoTest binary codec and register bit-packer

A shallow embedding, in Lean 4, of the pure computational core of
`QuaboAutoTest.py`: the `Util.reverse_bits` bit reversal, the
`QuaboConfig._set_bits` MAROC register bit-packer, the MAROC register
command frame assembly and echo verification, the science-packet parser
(`DataRecv.ParseData`, `ph` mode), the housekeeping parser
(`HKRecv.ParseData`) and the acquisition-parameter command builder
(`QuaboConfig.DaqParamsConfig`).

Modelling conventions:
* Python unbounded integers become `Nat`/`Int`; truncations such as
  `& 0xff` are written explicitly.  Python's `(~mask) & 0xff` on a
  non-negative `mask` equals `(mask &&& 0xff) ^^^ 0xff`, which is how the
  complement is rendered here.
* `bytearray`s become `List Nat` whose entries are below 256; Python
  slicing (which truncates silently) becomes `pySlice`.
* Fallible operations (`struct.unpack` size checks, sequence indexing,
  `bytes.decode`, `bytearray` item assignment) return `Except PyErr`.
* Floating-point scale factors from the housekeeping schema are modelled
  as exact rationals; no claim in this development depends on rounding.
-/

/-- Runtime failures of the Python code, as surfaced by the modelled
primitives: `structError` for a `struct.unpack` size mismatch,
`indexError` for sequence indexing out of range, `unicodeError` for an
invalid `bytes.decode('utf-8')`, `valueError` for a `bytearray` item
assignment outside `[0, 255]`.  The extra constructor `truncatedPacket`
renders the spec's `TruncatedPacket` taxonomy entry; the code models
below never produce it, which is what the refutation of claim C7 as
stated amounts to. -/
inductive PyErr where
  | structError
  | indexError
  | unicodeError
  | valueError
  | truncatedPacket
deriving DecidableEq, Repr

/-- Indexing with default 0, the reading discipline used throughout for
byte buffers. -/
def nth (l : List Nat) (i : Nat) : Nat := l.getD i 0

/-- Python slice `l[a:b]` for `0 ≤ a ≤ b`: silently truncates at the end
of the list. -/
def pySlice (l : List Nat) (a b : Nat) : List Nat := (l.take b).drop a

theorem length_pySlice (l : List Nat) (a b : Nat) :
    (pySlice l a b).length = min b l.length - a := by
  simp [pySlice]

theorem nth_pySlice (l : List Nat) (a b i : Nat) (h : a + i < b) :
    nth (pySlice l a b) i = nth l (a + i) := by
  simp only [nth, pySlice, List.getD_eq_getElem?_getD, List.getElem?_drop]
  rw [List.getElem?_take_of_lt h]

theorem shiftLeft_or_distrib (a b n : Nat) :
    (a ||| b) <<< n = (a <<< n) ||| (b <<< n) := by
  apply Nat.eq_of_testBit_eq
  intro i
  simp [Nat.testBit_or, Nat.testBit_shiftLeft, Bool.and_or_distrib_left]

theorem shiftLeft_one_shiftLeft (x n : Nat) : (x <<< 1) <<< n = x <<< (n + 1) := by
  simp only [Nat.shiftLeft_eq]
  ring

/-- `Util.reverse_bits` loop body: `width` iterations of
`data_out = (data_out << 1) | (data_in & 1); data_in >>= 1`. -/
def revLoop : Nat → Nat → Nat → Nat
  | 0, _, data_out => data_out
  | w + 1, data_in, data_out =>
      revLoop w (data_in >>> 1) ((data_out <<< 1) ||| (data_in &&& 1))

/-- `Util.reverse_bits(data_in, width)` from `QuaboAutoTest.py`. -/
def reverse_bits (data_in width : Nat) : Nat := revLoop width data_in 0

/-- Mathematical form of the reversal: bit `i` of `revNat w d` is bit
`w-1-i` of `d`. -/
def revNat : Nat → Nat → Nat
  | 0, _ => 0
  | w + 1, d => ((d &&& 1) <<< w) ||| revNat w (d >>> 1)

theorem and_one_lt_two (d : Nat) : d &&& 1 < 2 := by
  have := Nat.and_le_right (n := d) (m := 1)
  omega

theorem revNat_lt (w : Nat) : ∀ d, revNat w d < 2 ^ w := by
  induction w with
  | zero => intro d; simp [revNat]
  | succ w ih =>
      intro d
      rw [revNat]
      apply Nat.or_lt_two_pow
      · rw [Nat.shiftLeft_eq]
        have h2 : d &&& 1 < 2 := and_one_lt_two d
        have hp : 0 < 2 ^ w := pow_pos (by omega) w
        calc (d &&& 1) * 2 ^ w ≤ 1 * 2 ^ w := Nat.mul_le_mul_right _ (by omega)
        _ < 2 ^ (w + 1) := by rw [Nat.pow_succ]; omega
      · have hp : 0 < 2 ^ w := pow_pos (by omega) w
        exact lt_of_lt_of_le (ih (d >>> 1)) (by rw [Nat.pow_succ]; omega)

theorem revNat_testBit (w : Nat) :
    ∀ d i, i < w → (revNat w d).testBit i = d.testBit (w - 1 - i) := by
  induction w with
  | zero => intro d i h; omega
  | succ w ih =>
      intro d i h
      rw [revNat, Nat.testBit_or]
      rcases Nat.lt_or_ge i w with hiw | hiw
      · have h1 : ((d &&& 1) <<< w).testBit i = false := by
          rw [Nat.testBit_shiftLeft]
          simp [Nat.not_le.mpr hiw]
        rw [h1, Bool.false_or, ih (d >>> 1) i hiw, Nat.testBit_shiftRight]
        congr 1
        omega
      · have hi : i = w := by omega
        rw [hi]
        have h1 : (revNat w (d >>> 1)).testBit w = false :=
          Nat.testBit_lt_two_pow (revNat_lt w _)
        have h2 : ((d &&& 1) <<< w).testBit w = d.testBit 0 := by
          rw [Nat.testBit_shiftLeft]
          simp [Nat.testBit_and]
        rw [h1, Bool.or_false, h2]
        congr 1
        omega

theorem revLoop_eq (w : Nat) : ∀ din dout,
    revLoop w din dout = (dout <<< w) ||| revNat w din := by
  induction w with
  | zero => intro din dout; simp [revLoop, revNat]
  | succ w ih =>
      intro din dout
      rw [revLoop, ih, revNat, shiftLeft_or_distrib, shiftLeft_one_shiftLeft,
        Nat.lor_assoc]

theorem reverse_bits_eq_revNat (d w : Nat) : reverse_bits d w = revNat w d := by
  rw [reverse_bits, revLoop_eq]
  simp [Nat.shiftLeft_eq]

theorem reverse_bits_lt (d w : Nat) : reverse_bits d w < 2 ^ w := by
  rw [reverse_bits_eq_revNat]; exact revNat_lt w d

/-- C8: `reverse_bits` is self-inverse on `w`-bit values:
for every width `w` and every `v < 2^w`,
`reverse_bits (reverse_bits v w) w = v`. -/
theorem reverse_bits_involutive (w v : Nat) (hv : v < 2 ^ w) :
    reverse_bits (reverse_bits v w) w = v := by
  rw [reverse_bits_eq_revNat, reverse_bits_eq_revNat]
  apply Nat.eq_of_testBit_eq
  intro i
  rcases Nat.lt_or_ge i w with hiw | hiw
  · rw [revNat_testBit w _ i hiw, revNat_testBit w v (w - 1 - i) (by omega)]
    congr 1
    omega
  · rw [Nat.testBit_lt_two_pow (lt_of_lt_of_le (revNat_lt w _)
      (Nat.pow_le_pow_right (by omega) hiw)),
      Nat.testBit_lt_two_pow (lt_of_lt_of_le hv (Nat.pow_le_pow_right (by omega) hiw))]

/-- Witness for C8 at `w = 11`, `v = 1234`. -/
theorem reverse_bits_involutive_witness :
    1234 < 2 ^ 11 ∧ reverse_bits (reverse_bits 1234 11) 11 = 1234 :=
  ⟨by decide, reverse_bits_involutive 11 1234 (by decide)⟩

/-! ## The MAROC register bit-packer (`QuaboConfig._set_bits`) -/

/-- `QuaboConfig.SERIAL_COMMAND_LENGTH`. -/
def SERIAL_COMMAND_LENGTH : Nat := 829

/-- The chip image of index `c` among the four `_MAROC_regs` images. -/
def nthImg (regs : List (List Nat)) (c : Nat) : List Nat := regs.getD c []

/-- The mask-building loop of `_set_bits`:
`for ii in range(0, field_width): mask = (mask << 1) | 1`. -/
def maskLoop : Nat → Nat → Nat
  | 0, m => m
  | w + 1, m => maskLoop w ((m <<< 1) ||| 1)

theorem shiftLeft_one_or_one (m : Nat) : (m <<< 1) ||| 1 = 2 * m + 1 := by
  have h2 : m <<< 1 = 2 * m := by rw [Nat.shiftLeft_eq]; ring
  rw [h2]
  apply Nat.eq_of_testBit_eq
  intro i
  cases i with
  | zero =>
      rw [Nat.testBit_or]
      simp only [Nat.testBit_zero]
      rw [show 2 * m % 2 = 0 by omega, show (2 * m + 1) % 2 = 1 by omega]
      decide
  | succ j =>
      have h1 : (1 : Nat).testBit (j + 1) = false := by
        apply Nat.testBit_lt_two_pow
        calc (1 : Nat) < 2 ^ 1 := by norm_num
        _ ≤ 2 ^ (j + 1) := Nat.pow_le_pow_right (by omega) (by omega)
      rw [Nat.testBit_or, h1, Bool.or_false, Nat.testBit_add_one, Nat.testBit_add_one,
        show 2 * m / 2 = m by omega, show (2 * m + 1) / 2 = m by omega]

theorem maskLoop_eq (w : Nat) : ∀ m, maskLoop w m = m * 2 ^ w + (2 ^ w - 1) := by
  induction w with
  | zero => intro m; simp [maskLoop]
  | succ w ih =>
      intro m
      rw [maskLoop, ih, shiftLeft_one_or_one]
      have hp : 0 < 2 ^ w := pow_pos (by omega) w
      rw [Nat.pow_succ]
      ring_nf
      omega

theorem maskLoop_zero (w : Nat) : maskLoop w 0 = 2 ^ w - 1 := by
  rw [maskLoop_eq]; ring_nf

/-- The first read-modify-write of `_set_bits` on `MAROC_regs[chip][byte_pos]`:
clear the low byte of `mask`, OR in the low byte of `value << shift`. -/
def byte0New (b mask value shift : Nat) : Nat :=
  (b &&& ((mask &&& 0xff) ^^^ 0xff)) ||| ((value <<< shift) &&& 0xff)

/-- The second read-modify-write (`byte_pos + 1`, taken when
`shift + field_width > 8`). -/
def byte1New (b mask value shift : Nat) : Nat :=
  (b &&& (((mask >>> 8) &&& 0xff) ^^^ 0xff)) ||| ((value >>> (8 - shift)) &&& 0xff)

/-- The third read-modify-write (`byte_pos + 2`, taken when
`shift + field_width > 16`). -/
def byte2New (b mask value shift : Nat) : Nat :=
  (b &&& (((mask >>> 16) &&& 0xff) ^^^ 0xff)) ||| ((value >>> (16 - shift)) &&& 0xff)

/-- `QuaboConfig._set_bits` acting on a single 104-byte chip image, after the
two guard clauses have passed.  `shift`, `byte_pos` and `mask` are computed
exactly as in the source; the three conditional byte updates follow. -/
def setBitsImage (img : List Nat) (lsb_pos field_width value : Nat) : List Nat :=
  let shift := lsb_pos % 8
  let byte_pos := (lsb_pos + 7 - shift) / 8
  let mask := maskLoop field_width 0 <<< shift
  let img0 := img.set byte_pos (byte0New (nth img byte_pos) mask value shift)
  let img1 :=
    if 8 < shift + field_width then
      img0.set (byte_pos + 1) (byte1New (nth img0 (byte_pos + 1)) mask value shift)
    else img0
  if 16 < shift + field_width then
    img1.set (byte_pos + 2) (byte2New (nth img1 (byte_pos + 2)) mask value shift)
  else img1

/-- `QuaboConfig._set_bits(chip, lsb_pos, field_width, value)`: the two
silent-return guards, then the per-image update. -/
def set_bits (regs : List (List Nat)) (chip lsb_pos field_width value : Nat) :
    List (List Nat) :=
  if 16 < field_width then regs
  else if SERIAL_COMMAND_LENGTH < field_width + lsb_pos then regs
  else regs.set chip (setBitsImage (nthImg regs chip) lsb_pos field_width value)

/-- Bit `k` of an image, LSB-first within each byte, byte index `k / 8`. -/
def getBit (img : List Nat) (k : Nat) : Bool := (nth img (k / 8)).testBit (k % 8)

theorem nth_set_eq (l : List Nat) (i a : Nat) (h : i < l.length) :
    nth (l.set i a) i = a := by
  simp [nth, List.getElem?_set_self h]

theorem nth_set_ne (l : List Nat) (i j a : Nat) (h : i ≠ j) :
    nth (l.set i a) j = nth l j := by
  simp [nth, List.getElem?_set_ne h]

theorem clearOr_lt (b x y : Nat) :
    (b &&& ((x &&& 255) ^^^ 255)) ||| (y &&& 255) < 256 := by
  have h8 : (256 : Nat) = 2 ^ 8 := by norm_num
  rw [h8]
  apply Nat.or_lt_two_pow
  · exact Nat.and_lt_two_pow _ (Nat.xor_lt_two_pow
      (Nat.and_lt_two_pow _ (by norm_num)) (by norm_num))
  · exact Nat.and_lt_two_pow _ (by norm_num)

theorem byte0New_lt (b mask v s : Nat) : byte0New b mask v s < 256 := clearOr_lt ..

theorem byte1New_lt (b mask v s : Nat) : byte1New b mask v s < 256 := clearOr_lt ..

theorem byte2New_lt (b mask v s : Nat) : byte2New b mask v s < 256 := clearOr_lt ..

theorem length_setBitsImage (img : List Nat) (pos w v : Nat) :
    (setBitsImage img pos w v).length = img.length := by
  simp only [setBitsImage]
  split <;> split <;> simp [List.length_set]

theorem mem_lt_setBitsImage (img : List Nat) (pos w v : Nat)
    (hb : ∀ b ∈ img, b < 256) : ∀ b ∈ setBitsImage img pos w v, b < 256 := by
  intro b hmem
  simp only [setBitsImage] at hmem
  have step : ∀ (l : List Nat) (i x : Nat), x < 256 → (∀ c ∈ l, c < 256) →
      ∀ c ∈ l.set i x, c < 256 := by
    intro l i x hx hl c hc
    rcases List.mem_or_eq_of_mem_set hc with h | h
    · exact hl c h
    · omega
  have h0 : ∀ c ∈ img.set ((pos + 7 - pos % 8) / 8)
      (byte0New (nth img ((pos + 7 - pos % 8) / 8)) (maskLoop w 0 <<< (pos % 8)) v
        (pos % 8)), c < 256 := step _ _ _ (byte0New_lt ..) hb
  split at hmem
  · split at hmem
    · exact step _ _ _ (byte2New_lt ..) (step _ _ _ (byte1New_lt ..) h0) b hmem
    · exact step _ _ _ (byte2New_lt ..) h0 b hmem
  · split at hmem
    · exact step _ _ _ (byte1New_lt ..) h0 b hmem
    · exact h0 b hmem

theorem testBit_byte0 (b v r w j : Nat) (hj : j < 8) (hv : v < 2 ^ w) :
    (byte0New b ((2 ^ w - 1) <<< r) v r).testBit j
      = if r ≤ j ∧ j < r + w then v.testBit (j - r) else b.testBit j := by
  have e255 : (0xff : Nat) = 2 ^ 8 - 1 := rfl
  rw [byte0New, e255]
  simp only [Nat.testBit_or, Nat.testBit_and, Nat.testBit_xor, Nat.testBit_shiftLeft,
    Nat.testBit_two_pow_sub_one]
  by_cases hc : r ≤ j ∧ j < r + w
  · have h1 : decide (r ≤ j) = true := by simp [hc.1]
    have h2 : (2 ^ w - 1).testBit (j - r) = true := by
      rw [Nat.testBit_two_pow_sub_one]
      simp only [decide_eq_true_eq]
      omega
    simp only [if_pos hc, h1, h2, hj, decide_eq_true_eq]
    simp [h1, h2, decide_eq_true (show j < 8 from hj)]
    intro h3 h4
    exfalso
    omega
  · rw [if_neg hc]
    by_cases hr : r ≤ j
    · have h2 : (2 ^ w - 1).testBit (j - r) = false := by
        rw [Nat.testBit_two_pow_sub_one]
        simp only [decide_eq_false_iff_not]
        omega
      have hvb : v.testBit (j - r) = false :=
        Nat.testBit_lt_two_pow (lt_of_lt_of_le hv
          (Nat.pow_le_pow_right (by omega) (by omega)))
      simp [hr, h2, hvb, hj]
      intro h3
      omega
    · simp [hr, hj]

theorem testBit_byte1 (b v r w j : Nat) (hj : j < 8) (hr8 : r < 8) (hv : v < 2 ^ w) :
    (byte1New b ((2 ^ w - 1) <<< r) v r).testBit j
      = if 8 + j < r + w then v.testBit (8 + j - r) else b.testBit j := by
  have e255 : (0xff : Nat) = 2 ^ 8 - 1 := rfl
  rw [byte1New, e255]
  simp only [Nat.testBit_or, Nat.testBit_and, Nat.testBit_xor, Nat.testBit_shiftRight,
    Nat.testBit_shiftLeft, Nat.testBit_two_pow_sub_one]
  have hidx : 8 - r + j = 8 + j - r := by omega
  rw [hidx]
  have h1 : decide (r ≤ 8 + j) = true := by simp; omega
  by_cases hc : 8 + j < r + w
  · have h2 : (2 ^ w - 1).testBit (8 + j - r) = true := by
      rw [Nat.testBit_two_pow_sub_one]
      simp only [decide_eq_true_eq]
      omega
    simp [if_pos hc, h1, h2, hj]
    intro h3 h4
    exfalso
    omega
  · rw [if_neg hc]
    have h2 : (2 ^ w - 1).testBit (8 + j - r) = false := by
      rw [Nat.testBit_two_pow_sub_one]
      simp only [decide_eq_false_iff_not]
      omega
    have hvb : v.testBit (8 + j - r) = false :=
      Nat.testBit_lt_two_pow (lt_of_lt_of_le hv
        (Nat.pow_le_pow_right (by omega) (by omega)))
    simp [h1, h2, hvb, hj]
    intro h3
    omega

theorem testBit_byte2 (b v r w j : Nat) (hj : j < 8) (hr8 : r < 8) (hv : v < 2 ^ w) :
    (byte2New b ((2 ^ w - 1) <<< r) v r).testBit j
      = if 16 + j < r + w then v.testBit (16 + j - r) else b.testBit j := by
  have e255 : (0xff : Nat) = 2 ^ 8 - 1 := rfl
  rw [byte2New, e255]
  simp only [Nat.testBit_or, Nat.testBit_and, Nat.testBit_xor, Nat.testBit_shiftRight,
    Nat.testBit_shiftLeft, Nat.testBit_two_pow_sub_one]
  have hidx : 16 - r + j = 16 + j - r := by omega
  rw [hidx]
  have h1 : decide (r ≤ 16 + j) = true := by simp; omega
  by_cases hc : 16 + j < r + w
  · have h2 : (2 ^ w - 1).testBit (16 + j - r) = true := by
      rw [Nat.testBit_two_pow_sub_one]
      simp only [decide_eq_true_eq]
      omega
    simp [if_pos hc, h1, h2, hj]
    intro h3 h4
    exfalso
    omega
  · rw [if_neg hc]
    have h2 : (2 ^ w - 1).testBit (16 + j - r) = false := by
      rw [Nat.testBit_two_pow_sub_one]
      simp only [decide_eq_false_iff_not]
      omega
    have hvb : v.testBit (16 + j - r) = false :=
      Nat.testBit_lt_two_pow (lt_of_lt_of_le hv
        (Nat.pow_le_pow_right (by omega) (by omega)))
    simp [h1, h2, hvb, hj]
    intro h3
    omega

theorem nth_setBitsImage (img : List Nat) (pos w v i : Nat) (hlen : img.length = 104)
    (hbound : pos + w ≤ 829) :
    nth (setBitsImage img pos w v) i =
      if i = pos / 8 then
        byte0New (nth img (pos / 8)) (maskLoop w 0 <<< (pos % 8)) v (pos % 8)
      else if i = pos / 8 + 1 ∧ 8 < pos % 8 + w then
        byte1New (nth img (pos / 8 + 1)) (maskLoop w 0 <<< (pos % 8)) v (pos % 8)
      else if i = pos / 8 + 2 ∧ 16 < pos % 8 + w then
        byte2New (nth img (pos / 8 + 2)) (maskLoop w 0 <<< (pos % 8)) v (pos % 8)
      else nth img i := by
  have hq : (pos + 7 - pos % 8) / 8 = pos / 8 := by omega
  have hq104 : pos / 8 < 104 := by omega
  simp only [setBitsImage, hq]
  by_cases hc2 : 16 < pos % 8 + w
  · have hc1 : 8 < pos % 8 + w := by omega
    have hq1 : pos / 8 + 1 < 104 := by omega
    have hq2 : pos / 8 + 2 < 104 := by omega
    rw [if_pos hc2, if_pos hc1,
      nth_set_ne _ _ _ _ (show pos / 8 ≠ pos / 8 + 1 by omega),
      nth_set_ne _ _ _ _ (show pos / 8 + 1 ≠ pos / 8 + 2 by omega),
      nth_set_ne _ _ _ _ (show pos / 8 ≠ pos / 8 + 2 by omega)]
    by_cases h0 : i = pos / 8
    · rw [if_pos h0, h0,
        nth_set_ne _ _ _ _ (show pos / 8 + 2 ≠ pos / 8 by omega),
        nth_set_ne _ _ _ _ (show pos / 8 + 1 ≠ pos / 8 by omega),
        nth_set_eq _ _ _ (by omega)]
    · rw [if_neg h0]
      by_cases h1 : i = pos / 8 + 1
      · rw [if_pos (show i = pos / 8 + 1 ∧ 8 < pos % 8 + w from ⟨h1, hc1⟩), h1,
          nth_set_ne _ _ _ _ (show pos / 8 + 2 ≠ pos / 8 + 1 by omega),
          nth_set_eq _ _ _ (by simp [List.length_set]; omega)]
      · rw [if_neg (fun hx => h1 hx.1)]
        by_cases h2 : i = pos / 8 + 2
        · rw [if_pos (show i = pos / 8 + 2 ∧ 16 < pos % 8 + w from ⟨h2, hc2⟩), h2,
            nth_set_eq _ _ _ (by simp [List.length_set]; omega)]
        · rw [if_neg (fun hx => h2 hx.1),
            nth_set_ne _ _ _ _ (fun hx => h2 hx.symm),
            nth_set_ne _ _ _ _ (fun hx => h1 hx.symm),
            nth_set_ne _ _ _ _ (fun hx => h0 hx.symm)]
  · rw [if_neg hc2]
    by_cases hc1 : 8 < pos % 8 + w
    · have hq1 : pos / 8 + 1 < 104 := by omega
      rw [if_pos hc1,
        nth_set_ne _ _ _ _ (show pos / 8 ≠ pos / 8 + 1 by omega)]
      by_cases h0 : i = pos / 8
      · rw [if_pos h0, h0,
          nth_set_ne _ _ _ _ (show pos / 8 + 1 ≠ pos / 8 by omega),
          nth_set_eq _ _ _ (by omega)]
      · rw [if_neg h0]
        by_cases h1 : i = pos / 8 + 1
        · rw [if_pos (show i = pos / 8 + 1 ∧ 8 < pos % 8 + w from ⟨h1, hc1⟩), h1,
            nth_set_eq _ _ _ (by simp [List.length_set]; omega)]
        · rw [if_neg (fun hx => h1 hx.1), if_neg (fun hx => hc2 hx.2),
            nth_set_ne _ _ _ _ (fun hx => h1 hx.symm),
            nth_set_ne _ _ _ _ (fun hx => h0 hx.symm)]
    · rw [if_neg hc1]
      by_cases h0 : i = pos / 8
      · rw [if_pos h0, h0, nth_set_eq _ _ _ (by omega)]
      · rw [if_neg h0, if_neg (fun hx => hc1 hx.2), if_neg (fun hx => hc2 hx.2),
          nth_set_ne _ _ _ _ (fun hx => h0 hx.symm)]

/-- Per-bit characterization of `_set_bits` on one chip image: the `width`
bits starting at `pos` (LSB-first) become the bits of `v`, all other bits
are untouched. -/
theorem getBit_setBitsImage (img : List Nat) (pos w v k : Nat)
    (hlen : img.length = 104) (hw : w ≤ 16) (hbound : pos + w ≤ 829)
    (hv : v < 2 ^ w) :
    getBit (setBitsImage img pos w v) k =
      if pos ≤ k ∧ k < pos + w then v.testBit (k - pos) else getBit img k := by
  have hmask : maskLoop w 0 = 2 ^ w - 1 := maskLoop_zero w
  have hj8 : k % 8 < 8 := by omega
  have hr8 : pos % 8 < 8 := by omega
  rw [getBit, getBit, nth_setBitsImage img pos w v (k / 8) hlen hbound, hmask]
  by_cases h0 : k / 8 = pos / 8
  · rw [if_pos h0, testBit_byte0 _ _ _ _ _ hj8 hv, ← h0]
    by_cases hin : pos ≤ k ∧ k < pos + w
    · rw [if_pos hin, if_pos (show pos % 8 ≤ k % 8 ∧ k % 8 < pos % 8 + w by omega)]
      congr 1
      omega
    · rw [if_neg hin, if_neg (show ¬(pos % 8 ≤ k % 8 ∧ k % 8 < pos % 8 + w) by omega)]
  · rw [if_neg h0]
    by_cases h1 : k / 8 = pos / 8 + 1
    · by_cases hc1 : 8 < pos % 8 + w
      · rw [if_pos (show k / 8 = pos / 8 + 1 ∧ 8 < pos % 8 + w from ⟨h1, hc1⟩),
          testBit_byte1 _ _ _ _ _ hj8 hr8 hv, ← h1]
        by_cases hin : pos ≤ k ∧ k < pos + w
        · rw [if_pos hin, if_pos (show 8 + k % 8 < pos % 8 + w by omega)]
          congr 1
          omega
        · rw [if_neg hin, if_neg (show ¬(8 + k % 8 < pos % 8 + w) by omega)]
      · rw [if_neg (fun hx => hc1 hx.2), if_neg (fun hx => by omega),
          if_neg (show ¬(pos ≤ k ∧ k < pos + w) by omega)]
    · by_cases h2 : k / 8 = pos / 8 + 2
      · by_cases hc2 : 16 < pos % 8 + w
        · rw [if_neg (fun hx => h1 hx.1),
            if_pos (show k / 8 = pos / 8 + 2 ∧ 16 < pos % 8 + w from ⟨h2, hc2⟩),
            testBit_byte2 _ _ _ _ _ hj8 hr8 hv, ← h2]
          by_cases hin : pos ≤ k ∧ k < pos + w
          · rw [if_pos hin, if_pos (show 16 + k % 8 < pos % 8 + w by omega)]
            congr 1
            omega
          · rw [if_neg hin, if_neg (show ¬(16 + k % 8 < pos % 8 + w) by omega)]
        · rw [if_neg (fun hx => h1 hx.1), if_neg (fun hx => hc2 hx.2),
            if_neg (show ¬(pos ≤ k ∧ k < pos + w) by omega)]
      · rw [if_neg (fun hx => h1 hx.1), if_neg (fun hx => h2 hx.1),
          if_neg (show ¬(pos ≤ k ∧ k < pos + w) by omega)]

/-- Read back `w` bits of an image starting at bit `pos`, LSB-first: the
read-back procedure named by the bit-packer correctness property. -/
def readBits (img : List Nat) (pos : Nat) : Nat → Nat
  | 0 => 0
  | w + 1 => (if getBit img pos then 1 else 0) + 2 * readBits img (pos + 1) w

theorem readBits_eq (img : List Nat) : ∀ w pos v, v < 2 ^ w →
    (∀ i, i < w → getBit img (pos + i) = v.testBit i) → readBits img pos w = v := by
  intro w
  induction w with
  | zero =>
      intro pos v hv _
      rw [readBits]
      omega
  | succ w ih =>
      intro pos v hv hbits
      rw [readBits]
      have h0 : getBit img pos = v.testBit 0 := by
        have := hbits 0 (by omega)
        simpa using this
      have hpow : 2 ^ (w + 1) = 2 * 2 ^ w := by rw [Nat.pow_succ]; ring
      have hrec : readBits img (pos + 1) w = v / 2 := by
        apply ih (pos + 1) (v / 2) (by omega)
        intro i hi
        rw [show pos + 1 + i = pos + (i + 1) by omega, hbits (i + 1) (by omega),
          Nat.testBit_add_one]
      rw [h0, hrec, Nat.testBit_zero]
      by_cases hpar : v % 2 = 1
      · simp only [hpar, decide_True, if_true]
        omega
      · simp [hpar]
        omega

theorem nthImg_mem (regs : List (List Nat)) (c : Nat) (h : c < regs.length) :
    nthImg regs c ∈ regs := by
  rw [nthImg, List.getD_eq_getElem?_getD, List.getElem?_eq_getElem h]
  exact List.getElem_mem h

theorem nthImg_set_eq (regs : List (List Nat)) (c : Nat) (img : List Nat)
    (h : c < regs.length) : nthImg (regs.set c img) c = img := by
  rw [nthImg, List.getD_eq_getElem?_getD,
    List.getElem?_set_self (by simpa using h)]
  rfl

theorem nthImg_set_ne (regs : List (List Nat)) (c c' : Nat) (img : List Nat)
    (h : c ≠ c') : nthImg (regs.set c img) c' = nthImg regs c' := by
  rw [nthImg, nthImg, List.getD_eq_getElem?_getD, List.getD_eq_getElem?_getD,
    List.getElem?_set_ne h]

/-- Both `_set_bits` guards pass, so the chip image is updated. -/
theorem set_bits_eq (regs : List (List Nat)) (chip pos w v : Nat)
    (hw : w ≤ 16) (hbound : pos + w ≤ 829) :
    set_bits regs chip pos w v =
      regs.set chip (setBitsImage (nthImg regs chip) pos w v) := by
  rw [set_bits, if_neg (by omega),
    if_neg (by simp only [SERIAL_COMMAND_LENGTH]; omega)]

/-- C1: for chip < 4, width in [1,16], position + width ≤ 829 and
value < 2^width, `_set_bits` writes `value` into the addressed bit field
(read back LSB-first from byte `position / 8`) and leaves every bit of
that chip's image outside `[position, position+width)` unchanged. -/
theorem set_bits_readback (regs : List (List Nat)) (chip pos w v : Nat)
    (hregs : regs.length = 4) (hchip : chip < 4)
    (hwf : ∀ img ∈ regs, img.length = 104 ∧ ∀ b ∈ img, b < 256)
    (hw1 : 1 ≤ w) (hw : w ≤ 16) (hbound : pos + w ≤ 829) (hv : v < 2 ^ w) :
    readBits (nthImg (set_bits regs chip pos w v) chip) pos w = v ∧
    ∀ k, k < pos ∨ pos + w ≤ k →
      getBit (nthImg (set_bits regs chip pos w v) chip) k =
        getBit (nthImg regs chip) k := by
  obtain ⟨hlen, hbytes⟩ := hwf _ (nthImg_mem regs chip (by omega))
  have hset : nthImg (set_bits regs chip pos w v) chip =
      setBitsImage (nthImg regs chip) pos w v := by
    rw [set_bits_eq _ _ _ _ _ hw hbound, nthImg_set_eq _ _ _ (by omega)]
  constructor
  · rw [hset]
    apply readBits_eq _ w pos v hv
    intro i hi
    rw [getBit_setBitsImage _ _ _ _ _ hlen hw hbound hv,
      if_pos (show pos ≤ pos + i ∧ pos + i < pos + w by omega)]
    congr 1
    omega
  · intro k hk
    rw [hset, getBit_setBitsImage _ _ _ _ _ hlen hw hbound hv, if_neg (by omega)]

/-- All-zero initial `_MAROC_regs`: four 104-byte images. -/
def regsZero : List (List Nat) := List.replicate 4 (List.replicate 104 0)

/-- Witness for C1 at chip 2, position 13, width 11, value 1234. -/
theorem set_bits_readback_witness :
    readBits (nthImg (set_bits regsZero 2 13 11 1234) 2) 13 11 = 1234 ∧
    ∀ k, k < 13 ∨ 13 + 11 ≤ k →
      getBit (nthImg (set_bits regsZero 2 13 11 1234) 2) k =
        getBit (nthImg regsZero 2) k :=
  set_bits_readback regsZero 2 13 11 1234 (by decide) (by decide)
    (by decide) (by decide) (by decide) (by decide) (by decide)

/-- C6: a `_set_bits` request with `field_width > 16` or
`position + field_width > 829` is a silent no-op: the registers are
returned unchanged and no error is raised. -/
theorem set_bits_out_of_range_noop (regs : List (List Nat)) (chip pos w v : Nat)
    (h : 16 < w ∨ 829 < pos + w) :
    set_bits regs chip pos w v = regs := by
  rw [set_bits]
  rcases h with h | h
  · rw [if_pos h]
  · by_cases h16 : 16 < w
    · rw [if_pos h16]
    · rw [if_neg h16, if_pos (by simp only [SERIAL_COMMAND_LENGTH]; omega)]

/-- Witness for C6: width 17 (first guard) and position 820 width 16
(second guard) both leave the registers untouched. -/
theorem set_bits_out_of_range_noop_witness :
    set_bits regsZero 1 0 17 3 = regsZero ∧ set_bits regsZero 1 820 16 3 = regsZero :=
  ⟨set_bits_out_of_range_noop regsZero 1 0 17 3 (Or.inl (by decide)),
   set_bits_out_of_range_noop regsZero 1 820 16 3 (Or.inr (by decide))⟩

/-- C9: an in-range `_set_bits` call touches only the addressed chip's
image, and within it at most the three bytes at indices `position / 8`,
`position / 8 + 1` and `position / 8 + 2`. -/
theorem set_bits_frame_effect (regs : List (List Nat)) (chip pos w v : Nat)
    (hregs : regs.length = 4) (hchip : chip < 4)
    (hwf : ∀ img ∈ regs, img.length = 104 ∧ ∀ b ∈ img, b < 256)
    (hw : w ≤ 16) (hbound : pos + w ≤ 829) :
    (∀ c, c < 4 → c ≠ chip → nthImg (set_bits regs chip pos w v) c = nthImg regs c) ∧
    (∀ i, i ≠ pos / 8 → i ≠ pos / 8 + 1 → i ≠ pos / 8 + 2 →
      nth (nthImg (set_bits regs chip pos w v) chip) i = nth (nthImg regs chip) i) := by
  obtain ⟨hlen, _⟩ := hwf _ (nthImg_mem regs chip (by omega))
  rw [set_bits_eq _ _ _ _ _ hw hbound]
  constructor
  · intro c hc4 hne
    exact nthImg_set_ne _ _ _ _ (fun hx => hne hx.symm)
  · intro i hi0 hi1 hi2
    rw [nthImg_set_eq _ _ _ (by omega),
      nth_setBitsImage _ _ _ _ _ hlen hbound, if_neg hi0,
      if_neg (fun hx => hi1 hx.1), if_neg (fun hx => hi2 hx.1)]

/-- Witness for C9 at chip 1, position 300, width 16, value 40000. -/
theorem set_bits_frame_effect_witness :
    (∀ c, c < 4 → c ≠ 1 → nthImg (set_bits regsZero 1 300 16 40000) c = nthImg regsZero c) ∧
    (∀ i, i ≠ 300 / 8 → i ≠ 300 / 8 + 1 → i ≠ 300 / 8 + 2 →
      nth (nthImg (set_bits regsZero 1 300 16 40000) 1) i = nth (nthImg regsZero 1) i) :=
  set_bits_frame_effect regsZero 1 300 16 40000 (by decide) (by decide)
    (by decide) (by decide) (by decide)

theorem nth_eq_getElem (l : List Nat) (n : Nat) (h : n < l.length) :
    nth l n = l[n] := by
  rw [nth, List.getD_eq_getElem?_getD, List.getElem?_eq_getElem h]
  rfl

/-- Two byte images with in-range bytes that agree on every bit are equal. -/
theorem image_ext (a b : List Nat) (hlen : a.length = b.length)
    (ha : ∀ x ∈ a, x < 256) (hb : ∀ x ∈ b, x < 256)
    (hbits : ∀ k, getBit a k = getBit b k) : a = b := by
  apply List.ext_getElem hlen
  intro n h1 h2
  apply Nat.eq_of_testBit_eq
  intro j
  by_cases hj : j < 8
  · have hx := hbits (8 * n + j)
    rw [getBit, getBit, show (8 * n + j) / 8 = n by omega,
      show (8 * n + j) % 8 = j by omega, nth_eq_getElem _ _ h1,
      nth_eq_getElem _ _ h2] at hx
    exact hx
  · have hpow : (256 : Nat) ≤ 2 ^ j := by
      calc (256 : Nat) = 2 ^ 8 := by norm_num
      _ ≤ 2 ^ j := Nat.pow_le_pow_right (by omega) (by omega)
    rw [Nat.testBit_lt_two_pow (lt_of_lt_of_le (ha _ (List.getElem_mem h1)) hpow),
      Nat.testBit_lt_two_pow (lt_of_lt_of_le (hb _ (List.getElem_mem h2)) hpow)]

/-- C5: two in-range `_set_bits` writes to the same chip with disjoint bit
ranges commute: applying them in either order yields identical registers. -/
theorem set_bits_disjoint_comm (regs : List (List Nat)) (chip p1 w1 v1 p2 w2 v2 : Nat)
    (hregs : regs.length = 4) (hchip : chip < 4)
    (hwf : ∀ img ∈ regs, img.length = 104 ∧ ∀ b ∈ img, b < 256)
    (hw1 : w1 ≤ 16) (hw2 : w2 ≤ 16)
    (hb1 : p1 + w1 ≤ 829) (hb2 : p2 + w2 ≤ 829)
    (hv1 : v1 < 2 ^ w1) (hv2 : v2 < 2 ^ w2)
    (hdisj : p1 + w1 ≤ p2 ∨ p2 + w2 ≤ p1) :
    set_bits (set_bits regs chip p1 w1 v1) chip p2 w2 v2 =
      set_bits (set_bits regs chip p2 w2 v2) chip p1 w1 v1 := by
  obtain ⟨hlen, hbytes⟩ := hwf _ (nthImg_mem regs chip (by omega))
  have e1 : set_bits (set_bits regs chip p1 w1 v1) chip p2 w2 v2 =
      regs.set chip (setBitsImage (setBitsImage (nthImg regs chip) p1 w1 v1) p2 w2 v2) := by
    rw [set_bits_eq _ _ _ _ _ hw1 hb1, set_bits_eq _ _ _ _ _ hw2 hb2,
      nthImg_set_eq _ _ _ (by omega), List.set_set]
  have e2 : set_bits (set_bits regs chip p2 w2 v2) chip p1 w1 v1 =
      regs.set chip (setBitsImage (setBitsImage (nthImg regs chip) p2 w2 v2) p1 w1 v1) := by
    rw [set_bits_eq _ _ _ _ _ hw2 hb2, set_bits_eq _ _ _ _ _ hw1 hb1,
      nthImg_set_eq _ _ _ (by omega), List.set_set]
  rw [e1, e2]
  have hlen1 : (setBitsImage (nthImg regs chip) p1 w1 v1).length = 104 := by
    rw [length_setBitsImage, hlen]
  have hlen2 : (setBitsImage (nthImg regs chip) p2 w2 v2).length = 104 := by
    rw [length_setBitsImage, hlen]
  have himg : setBitsImage (setBitsImage (nthImg regs chip) p1 w1 v1) p2 w2 v2 =
      setBitsImage (setBitsImage (nthImg regs chip) p2 w2 v2) p1 w1 v1 := by
    apply image_ext
    · simp only [length_setBitsImage]
    · exact mem_lt_setBitsImage _ _ _ _ (mem_lt_setBitsImage _ _ _ _ hbytes)
    · exact mem_lt_setBitsImage _ _ _ _ (mem_lt_setBitsImage _ _ _ _ hbytes)
    · intro k
      rw [getBit_setBitsImage _ _ _ _ _ hlen1 hw2 hb2 hv2,
        getBit_setBitsImage _ _ _ _ _ hlen hw1 hb1 hv1,
        getBit_setBitsImage _ _ _ _ _ hlen2 hw1 hb1 hv1,
        getBit_setBitsImage _ _ _ _ _ hlen hw2 hb2 hv2]
      by_cases h1 : p1 ≤ k ∧ k < p1 + w1
      · have h2 : ¬(p2 ≤ k ∧ k < p2 + w2) := by omega
        rw [if_neg h2, if_pos h1, if_pos h1]
      · by_cases h2 : p2 ≤ k ∧ k < p2 + w2
        · rw [if_pos h2, if_neg h1, if_pos h2]
        · rw [if_neg h2, if_neg h1, if_neg h1, if_neg h2]
  rw [himg]

/-- Witness for C5: fields at bits [10,18) and [18,26) of chip 0,
written in either order. -/
theorem set_bits_disjoint_comm_witness :
    set_bits (set_bits regsZero 0 10 8 200) 0 18 8 100 =
      set_bits (set_bits regsZero 0 18 8 100) 0 10 8 200 :=
  set_bits_disjoint_comm regsZero 0 10 8 200 18 8 100 (by decide) (by decide)
    (by decide) (by decide) (by decide) (by decide) (by decide) (by decide)
    (by decide) (Or.inl (by decide))

/-! ## MAROC register command frame (`QuaboConfig._make_maroc_cmd`) and
echo verification (`QuaboConfig.SetMarocParams`) -/

/-- The copy loop of `_make_maroc_cmd`:
`for ii in range(104): cmd[ii+4] = regs[0][ii]; cmd[ii+132] = regs[1][ii];
cmd[ii+260] = regs[2][ii]; cmd[ii+388] = regs[3][ii]`, iterations `0..n-1`. -/
def copyRegsLoop (regs : List (List Nat)) (cmd : List Nat) : Nat → List Nat
  | 0 => cmd
  | n + 1 =>
      let c := copyRegsLoop regs cmd n
      ((((c.set (n + 4) (nth (nthImg regs 0) n)).set
          (n + 132) (nth (nthImg regs 1) n)).set
          (n + 260) (nth (nthImg regs 2) n)).set
          (n + 388) (nth (nthImg regs 3) n))

/-- `_make_maroc_cmd(cmd, echo)` restricted to its frame-assembly effect:
opcode byte `0x81`/`0x01` at index 0, the four chip images copied into the
frame.  The tag-processing that fills `_MAROC_regs` beforehand is taken as
an input (`regs`). -/
def make_maroc_frame (echo : Bool) (regs : List (List Nat)) (cmd : List Nat) :
    List Nat :=
  copyRegsLoop regs (cmd.set 0 (if echo then 0x81 else 0x01)) 104

theorem length_copyRegsLoop (regs : List (List Nat)) (cmd : List Nat) :
    ∀ n, (copyRegsLoop regs cmd n).length = cmd.length := by
  intro n
  induction n with
  | zero => rw [copyRegsLoop]
  | succ n ih => simp only [copyRegsLoop, List.length_set, ih]

theorem length_make_maroc_frame (echo : Bool) (regs : List (List Nat))
    (cmd : List Nat) : (make_maroc_frame echo regs cmd).length = cmd.length := by
  rw [make_maroc_frame, length_copyRegsLoop, List.length_set]

/-- Start offsets of the four chip-image slices in the 492-byte frame. -/
def chipSlot : Nat → Nat
  | 0 => 4
  | 1 => 132
  | 2 => 260
  | _ => 388

theorem chipSlot_zero : chipSlot 0 = 4 := rfl

theorem chipSlot_one : chipSlot 1 = 132 := rfl

theorem chipSlot_two : chipSlot 2 = 260 := rfl

theorem chipSlot_three : chipSlot 3 = 388 := rfl

theorem nth_copyRegsLoop_slot (regs : List (List Nat)) (cmd : List Nat)
    (hcmd : cmd.length = 492) (c : Nat) (hc : c < 4) :
    ∀ n, n ≤ 104 → ∀ ii, ii < 104 →
      nth (copyRegsLoop regs cmd n) (ii + chipSlot c) =
        if ii < n then nth (nthImg regs c) ii else nth cmd (ii + chipSlot c) := by
  intro n
  induction n with
  | zero =>
      intro _ ii _
      rw [copyRegsLoop, if_neg (by omega)]
  | succ n ih =>
      intro hn ii hii
      have hlencl : (copyRegsLoop regs cmd n).length = 492 := by
        rw [length_copyRegsLoop, hcmd]
      simp only [copyRegsLoop]
      by_cases heq : ii = n
      · subst heq
        rw [if_pos (by omega)]
        interval_cases c
        · simp only [chipSlot_zero]
          rw [nth_set_ne _ _ _ _ (show ii + 388 ≠ ii + 4 by omega),
            nth_set_ne _ _ _ _ (show ii + 260 ≠ ii + 4 by omega),
            nth_set_ne _ _ _ _ (show ii + 132 ≠ ii + 4 by omega),
            nth_set_eq _ _ _ (by simp only [hlencl]; omega)]
        · simp only [chipSlot_one]
          rw [nth_set_ne _ _ _ _ (show ii + 388 ≠ ii + 132 by omega),
            nth_set_ne _ _ _ _ (show ii + 260 ≠ ii + 132 by omega),
            nth_set_eq _ _ _ (by simp only [List.length_set, hlencl]; omega)]
        · simp only [chipSlot_two]
          rw [nth_set_ne _ _ _ _ (show ii + 388 ≠ ii + 260 by omega),
            nth_set_eq _ _ _ (by simp only [List.length_set, hlencl]; omega)]
        · simp only [chipSlot_three]
          rw [nth_set_eq _ _ _ (by simp only [List.length_set, hlencl]; omega)]
      · have h4 : n + 4 ≠ ii + chipSlot c := by
          interval_cases c <;>
            simp only [chipSlot_zero, chipSlot_one, chipSlot_two, chipSlot_three] <;>
            omega
        have h132 : n + 132 ≠ ii + chipSlot c := by
          interval_cases c <;>
            simp only [chipSlot_zero, chipSlot_one, chipSlot_two, chipSlot_three] <;>
            omega
        have h260 : n + 260 ≠ ii + chipSlot c := by
          interval_cases c <;>
            simp only [chipSlot_zero, chipSlot_one, chipSlot_two, chipSlot_three] <;>
            omega
        have h388 : n + 388 ≠ ii + chipSlot c := by
          interval_cases c <;>
            simp only [chipSlot_zero, chipSlot_one, chipSlot_two, chipSlot_three] <;>
            omega
        rw [nth_set_ne _ _ _ _ h388, nth_set_ne _ _ _ _ h260,
          nth_set_ne _ _ _ _ h132, nth_set_ne _ _ _ _ h4, ih (by omega) ii hii]
        by_cases hlt : ii < n
        · rw [if_pos hlt, if_pos (by omega)]
        · rw [if_neg hlt, if_neg (by omega)]

theorem nth_copyRegsLoop_gap (regs : List (List Nat)) (cmd : List Nat) :
    ∀ n, n ≤ 104 → ∀ j,
      (j < 4 ∨ (108 ≤ j ∧ j < 132) ∨ (236 ≤ j ∧ j < 260) ∨ (364 ≤ j ∧ j < 388)) →
      nth (copyRegsLoop regs cmd n) j = nth cmd j := by
  intro n
  induction n with
  | zero => intro _ j _; rw [copyRegsLoop]
  | succ n ih =>
      intro hn j hj
      simp only [copyRegsLoop]
      rw [nth_set_ne _ _ _ _ (show n + 388 ≠ j by omega),
        nth_set_ne _ _ _ _ (show n + 260 ≠ j by omega),
        nth_set_ne _ _ _ _ (show n + 132 ≠ j by omega),
        nth_set_ne _ _ _ _ (show n + 4 ≠ j by omega),
        ih (by omega) j hj]

/-- C3 (amended): the 492-byte register frame consists of the opcode byte
at index 0, the four 104-byte chip images at the fixed slices
`[4,108)`, `[132,236)`, `[260,364)`, `[388,492)` (i.e. `ii + chipSlot c`),
and reserved gap bytes — three bytes after the opcode and three 24-byte
inter-slice gaps `[108,132)`, `[236,260)`, `[364,388)` — left untouched. -/
theorem make_maroc_frame_layout (echo : Bool) (regs : List (List Nat))
    (cmd : List Nat) (hcmd : cmd.length = 492) :
    (make_maroc_frame echo regs cmd).length = 492 ∧
    nth (make_maroc_frame echo regs cmd) 0 = (if echo then 0x81 else 0x01) ∧
    (∀ c, c < 4 → ∀ ii, ii < 104 →
      nth (make_maroc_frame echo regs cmd) (ii + chipSlot c) =
        nth (nthImg regs c) ii) ∧
    (∀ j, (1 ≤ j ∧ j < 4) ∨ (108 ≤ j ∧ j < 132) ∨ (236 ≤ j ∧ j < 260) ∨
        (364 ≤ j ∧ j < 388) →
      nth (make_maroc_frame echo regs cmd) j = nth cmd j) := by
  have hset : (cmd.set 0 (if echo then 0x81 else 0x01)).length = 492 := by
    rw [List.length_set, hcmd]
  refine ⟨?_, ?_, ?_, ?_⟩
  · rw [length_make_maroc_frame, hcmd]
  · rw [make_maroc_frame, nth_copyRegsLoop_gap _ _ 104 (by omega) 0 (by omega),
      nth_set_eq _ _ _ (by omega)]
  · intro c hc ii hii
    rw [make_maroc_frame, nth_copyRegsLoop_slot _ _ hset c hc 104 (by omega) ii hii,
      if_pos hii]
  · intro j hj
    rw [make_maroc_frame, nth_copyRegsLoop_gap _ _ 104 (by omega) j (by omega),
      nth_set_ne _ _ _ _ (by omega)]

/-- All-zero 492-byte command buffer, as allocated by `SetMarocParams`. -/
def zero492 : List Nat := List.replicate 492 0

/-- Witness for the amended C3 at `echo = true`, all-zero images and buffer. -/
theorem make_maroc_frame_layout_witness :
    (make_maroc_frame true regsZero zero492).length = 492 ∧
    nth (make_maroc_frame true regsZero zero492) 0 = (if true then 0x81 else 0x01) ∧
    (∀ c, c < 4 → ∀ ii, ii < 104 →
      nth (make_maroc_frame true regsZero zero492) (ii + chipSlot c) =
        nth (nthImg regsZero c) ii) ∧
    (∀ j, (1 ≤ j ∧ j < 4) ∨ (108 ≤ j ∧ j < 132) ∨ (236 ≤ j ∧ j < 260) ∨
        (364 ≤ j ∧ j < 388) →
      nth (make_maroc_frame true regsZero zero492) j = nth zero492 j) :=
  make_maroc_frame_layout true regsZero zero492 (by rw [zero492, List.length_replicate])

/-- Four distinguishable chip images: image `c` is constant `c + 1`. -/
def marocTestRegs : List (List Nat) :=
  [List.replicate 104 1, List.replicate 104 2, List.replicate 104 3,
   List.replicate 104 4]

/-- The frame built from `marocTestRegs` over a zeroed 492-byte buffer. -/
def marocTestFrame : List Nat := make_maroc_frame false marocTestRegs zero492

/-- Counterexample to C3 as stated: no placement of the four 104-byte
images at a slice pitch of `104 + 28` bytes (28-byte gaps) matches the
frame the code builds — indeed `s0 + 3*132 + 103 ≥ 492` overruns the
frame for every start `s0`, while the code uses a pitch of 128
(24-byte gaps) at offsets 4, 132, 260, 388. -/
theorem make_maroc_frame_gap28_counterexample :
    ¬ ∃ s0, ∀ c, c < 4 → ∀ ii, ii < 104 →
        nth marocTestFrame (s0 + c * (104 + 28) + ii) =
          nth (nthImg marocTestRegs c) ii := by
  rintro ⟨s0, h⟩
  have h3 := h 3 (by omega) 103 (by omega)
  have hlen : marocTestFrame.length = 492 := by
    rw [marocTestFrame, length_make_maroc_frame, zero492, List.length_replicate]
  have hnth : nth marocTestFrame (s0 + 3 * (104 + 28) + 103) = 0 := by
    rw [nth, List.getD_eq_getElem?_getD, List.getElem?_eq_none (by omega)]
    rfl
  have hval : nth (nthImg marocTestRegs 3) 103 = 4 := by decide
  rw [h3, hval] at hnth
  exact absurd hnth (by omega)

/-! ## Echo verification of the register frame (`SetMarocParams`) -/

/-- The three reserved index ranges skipped by the echo comparison. -/
def reservedIdx (i : Nat) : Bool :=
  (decide (108 ≤ i) && decide (i < 132)) ||
  (decide (236 ≤ i) && decide (i < 260)) ||
  (decide (364 ≤ i) && decide (i < 388))

/-- The comparison loop of `SetMarocParams`: indices `0..n-1`, skipping
reserved ranges, `False` on the first mismatch. -/
def echoCheckLoop (cmd reply : List Nat) : Nat → Bool
  | 0 => true
  | i + 1 => echoCheckLoop cmd reply i &&
      (reservedIdx i || decide (nth cmd i = nth reply i))

/-- The echo verification of `SetMarocParams` (`echo = 1` path): the reply
must be 492 bytes and must agree with the sent frame outside the reserved
ranges; `True` is the success return. -/
def verify_maroc_echo (cmd reply : List Nat) : Bool :=
  if reply.length = 492 then echoCheckLoop cmd reply 492 else false

theorem echoCheckLoop_iff (cmd reply : List Nat) : ∀ n,
    (echoCheckLoop cmd reply n = true ↔
      ∀ i, i < n → reservedIdx i = false → nth cmd i = nth reply i) := by
  intro n
  induction n with
  | zero =>
      simp only [echoCheckLoop]
      constructor
      · intro _ i hi _
        omega
      · intro _
        trivial
  | succ n ih =>
      rw [echoCheckLoop, Bool.and_eq_true, ih]
      constructor
      · rintro ⟨hall, hlast⟩ i hi hres
        rcases Nat.lt_or_ge i n with hin | hin
        · exact hall i hin hres
        · have hi' : i = n := by omega
          subst hi'
          rcases Bool.or_eq_true_iff.mp hlast with hr | hd
          · rw [hres] at hr
            cases hr
          · exact of_decide_eq_true hd
      · intro hall
        refine ⟨fun i hi hres => hall i (by omega) hres, ?_⟩
        by_cases hres : reservedIdx n = true
        · rw [hres, Bool.true_or]
        · rw [Bool.or_eq_true_iff]
          right
          exact decide_eq_true (hall n (by omega) (by simpa using hres))

/-- C4: for a sent 492-byte frame and a 492-byte echoed reply, the echo
verification succeeds (no mismatch reported) iff the two frames agree at
every byte index outside the reserved ranges `[108,132)`, `[236,260)`,
`[364,388)`; differences confined to those ranges are ignored. -/
theorem verify_maroc_echo_iff (cmd reply : List Nat)
    (hcmd : cmd.length = 492) (hreply : reply.length = 492) :
    (verify_maroc_echo cmd reply = true ↔
      ∀ i, i < 492 → reservedIdx i = false → nth cmd i = nth reply i) := by
  rw [verify_maroc_echo, if_pos hreply, echoCheckLoop_iff]

/-- Witness for C4: two 492-byte frames differing only at reserved index
110. -/
theorem verify_maroc_echo_iff_witness :
    (verify_maroc_echo zero492 (zero492.set 110 7) = true ↔
      ∀ i, i < 492 → reservedIdx i = false →
        nth zero492 i = nth (zero492.set 110 7) i) :=
  verify_maroc_echo_iff zero492 (zero492.set 110 7)
    (by rw [zero492, List.length_replicate])
    (by rw [List.length_set, zero492, List.length_replicate])

/-! ## Science packet parsing (`DataRecv.ParseData`, mode `'ph'`) -/

/-- Little-endian value of a byte list (the order `struct.unpack('<..')`
uses). -/
def leNat : List Nat → Nat
  | [] => 0
  | b :: rest => b + 256 * leNat rest

/-- `struct.unpack` of a single little-endian unsigned integer of `width`
bytes: `struct.error` unless the buffer length matches the format size. -/
def unpackLEn (width : Nat) (d : List Nat) : Except PyErr Nat :=
  if d.length = width then .ok (leNat d) else .error .structError

/-- Two's-complement reading of a `bits`-wide value. -/
def toSigned (bits v : Nat) : Int :=
  if v < 2 ^ (bits - 1) then (v : Int) else (v : Int) - 2 ^ bits

/-- `struct.unpack('<1b', d)`: one signed byte. -/
def unpackS8 (d : List Nat) : Except PyErr Int :=
  if d.length = 1 then .ok (toSigned 8 (leNat d)) else .error .structError

/-- A signed little-endian 16-bit sample from two bytes. -/
def s16le (b0 b1 : Nat) : Int := toSigned 16 (b0 + 256 * b1)

/-- Consecutive byte pairs as signed little-endian 16-bit values
(the payload of `struct.unpack('<256h', d)`). -/
def pairsS16 : List Nat → List Int
  | [] => []
  | [_] => []
  | b0 :: b1 :: rest => s16le b0 b1 :: pairsS16 rest

/-- `struct.unpack('<{count}h', d)`: `struct.error` unless `d` has exactly
`2*count` bytes. -/
def unpackS16s (count : Nat) (d : List Nat) : Except PyErr (List Int) :=
  if d.length = 2 * count then .ok (pairsS16 d) else .error .structError

/-- The decoded record of a `ph`-mode science packet (`DaqPktDef` fields). -/
structure SciRecord where
  acq_mode : Int
  packet_ver : Int
  packet_no : Nat
  boardloc : String
  tai : Nat
  nanosec : Nat
  data : List Int

/-- `'192.168.%d.%d' % (r >> 8, r & 0xff)`. -/
def boardlocStr (r : Nat) : String :=
  "192.168." ++ toString (r >>> 8) ++ "." ++ toString (r &&& 255)

/-- `DataRecv.ParseData` on one received datagram with `mode = 'ph'`:
the `DaqPktDef` fields in dictionary order.  `acq_mode`/`packet_ver` are
signed bytes, `packet_no` is `'<1H'`, `boardloc` is special-cased on
`data[0:2]` (a quirk of the source: not the field's own offset 4),
`tai`/`nanosec` are `'<1I'`, and the `ph` payload is
`'<256h'` on `data[16:528]` (512 bytes, `DaqPktDef['data']['ph']`). -/
def sciParsePh (buf : List Nat) : Except PyErr SciRecord := do
  let acq ← unpackS8 (pySlice buf 0 1)
  let ver ← unpackS8 (pySlice buf 1 2)
  let no ← unpackLEn 2 (pySlice buf 2 4)
  let bl ← unpackLEn 2 (pySlice buf 0 2)
  let tai ← unpackLEn 4 (pySlice buf 6 10)
  let ns ← unpackLEn 4 (pySlice buf 10 14)
  let d ← unpackS16s 256 (pySlice buf 16 528)
  .ok ⟨acq, ver, no, boardlocStr bl, tai, ns, d⟩

theorem pairsS16_length : ∀ d : List Nat, (pairsS16 d).length = d.length / 2
  | [] => rfl
  | [_] => by simp [pairsS16]
  | _ :: b1 :: rest => by
      rw [pairsS16, List.length_cons, pairsS16_length rest]
      simp only [List.length_cons]
      omega

theorem pairsS16_getD : ∀ (d : List Nat) (j : Nat), 2 * j + 1 < d.length →
    (pairsS16 d).getD j 0 = s16le (nth d (2 * j)) (nth d (2 * j + 1))
  | [], j, h => by simp at h
  | [_], j, h => by
      simp only [List.length_singleton] at h
      omega
  | b0 :: b1 :: rest, 0, _ => by
      rw [pairsS16]
      simp [nth]
  | b0 :: b1 :: rest, j + 1, h => by
      rw [pairsS16, List.getD_cons_succ,
        pairsS16_getD rest j (by simp only [List.length_cons] at h; omega)]
      have e1 : 2 * (j + 1) = 2 * j + 1 + 1 := by omega
      rw [e1]
      have n1 : nth (b0 :: b1 :: rest) (2 * j + 1 + 1) = nth rest (2 * j) := by
        simp only [nth, List.getD_cons_succ]
      have n2 : nth (b0 :: b1 :: rest) (2 * j + 1 + 1 + 1) = nth rest (2 * j + 1) := by
        simp only [nth, List.getD_cons_succ]
      rw [n1, n2]

theorem except_ok_bind {α β : Type} (a : α) (f : α → Except PyErr β) :
    (Except.ok a >>= f) = f a := rfl

/-- C2 (amended): a `ph`-mode packet of at least 528 bytes decodes to a
record whose `data` sequence has length 256 (the 512-byte payload holds
256 signed 16-bit samples), whose first sample is the first two payload
bytes read as signed little-endian 16-bit, and whose `j`-th sample is the
pair at payload offset `2j`. -/
theorem sciParsePh_ok (buf : List Nat) (h : 528 ≤ buf.length) :
    ∃ rec, sciParsePh buf = .ok rec ∧
      rec.data.length = 256 ∧
      rec.data.getD 0 0 = s16le (nth buf 16) (nth buf 17) ∧
      ∀ j, j < 256 →
        rec.data.getD j 0 = s16le (nth buf (16 + 2 * j)) (nth buf (16 + 2 * j + 1)) := by
  have hs : ∀ a b : Nat, b ≤ 528 → (pySlice buf a b).length = b - a := by
    intro a b hb
    rw [length_pySlice]
    omega
  have e1 : unpackS8 (pySlice buf 0 1) = .ok (toSigned 8 (leNat (pySlice buf 0 1))) := by
    rw [unpackS8, if_pos (hs 0 1 (by omega))]
  have e2 : unpackS8 (pySlice buf 1 2) = .ok (toSigned 8 (leNat (pySlice buf 1 2))) := by
    rw [unpackS8, if_pos (hs 1 2 (by omega))]
  have e3 : unpackLEn 2 (pySlice buf 2 4) = .ok (leNat (pySlice buf 2 4)) := by
    rw [unpackLEn, if_pos (hs 2 4 (by omega))]
  have e4 : unpackLEn 2 (pySlice buf 0 2) = .ok (leNat (pySlice buf 0 2)) := by
    rw [unpackLEn, if_pos (hs 0 2 (by omega))]
  have e5 : unpackLEn 4 (pySlice buf 6 10) = .ok (leNat (pySlice buf 6 10)) := by
    rw [unpackLEn, if_pos (hs 6 10 (by omega))]
  have e6 : unpackLEn 4 (pySlice buf 10 14) = .ok (leNat (pySlice buf 10 14)) := by
    rw [unpackLEn, if_pos (hs 10 14 (by omega))]
  have hlen512 : (pySlice buf 16 528).length = 512 := hs 16 528 (by omega)
  have e7 : unpackS16s 256 (pySlice buf 16 528) = .ok (pairsS16 (pySlice buf 16 528)) := by
    rw [unpackS16s, if_pos (by omega)]
  refine ⟨⟨toSigned 8 (leNat (pySlice buf 0 1)), toSigned 8 (leNat (pySlice buf 1 2)),
    leNat (pySlice buf 2 4), boardlocStr (leNat (pySlice buf 0 2)),
    leNat (pySlice buf 6 10), leNat (pySlice buf 10 14),
    pairsS16 (pySlice buf 16 528)⟩, ?_, ?_, ?_, ?_⟩
  · rw [sciParsePh, e1, except_ok_bind, e2, except_ok_bind, e3, except_ok_bind,
      e4, except_ok_bind, e5, except_ok_bind, e6, except_ok_bind, e7,
      except_ok_bind]
  · show (pairsS16 (pySlice buf 16 528)).length = 256
    rw [pairsS16_length, hlen512]
  · show (pairsS16 (pySlice buf 16 528)).getD 0 0 = s16le (nth buf 16) (nth buf 17)
    rw [pairsS16_getD _ 0 (by omega),
      show (2 : Nat) * 0 = 0 from rfl, show (2 : Nat) * 0 + 1 = 1 from rfl,
      nth_pySlice _ _ _ _ (by omega), nth_pySlice _ _ _ _ (by omega)]
  · intro j hj
    show (pairsS16 (pySlice buf 16 528)).getD j 0 =
      s16le (nth buf (16 + 2 * j)) (nth buf (16 + 2 * j + 1))
    rw [pairsS16_getD _ j (by omega), nth_pySlice _ _ _ _ (by omega),
      nth_pySlice _ _ _ _ (by omega),
      show (16 : Nat) + (2 * j + 1) = 16 + 2 * j + 1 by omega]

/-- A concrete `ph` packet: header `acq_mode=1, ver=1, seq=5`, zero
payload, 528 bytes in all. -/
def sciTestBuf : List Nat := 1 :: 1 :: 5 :: 0 :: List.replicate 524 0

theorem length_sciTestBuf : sciTestBuf.length = 528 := by
  rw [sciTestBuf]
  simp only [List.length_cons, List.length_replicate]

/-- Witness for the amended C2 on `sciTestBuf`. -/
theorem sciParsePh_ok_witness :
    ∃ rec, sciParsePh sciTestBuf = .ok rec ∧
      rec.data.length = 256 ∧
      rec.data.getD 0 0 = s16le (nth sciTestBuf 16) (nth sciTestBuf 17) ∧
      ∀ j, j < 256 →
        rec.data.getD j 0 =
          s16le (nth sciTestBuf (16 + 2 * j)) (nth sciTestBuf (16 + 2 * j + 1)) :=
  sciParsePh_ok sciTestBuf (by rw [length_sciTestBuf])

set_option maxRecDepth 4000 in
/-- Counterexample to C2 as stated: the `ph` record's `data` sequence has
length 256, not 512 — `DaqPktDef['data']['ph']` gives the payload length
in bytes (512), and `struct.unpack('<256h', ...)` yields 256 samples. -/
theorem sciParsePh_len512_counterexample :
    Except.map (fun r : SciRecord => r.data.length) (sciParsePh sciTestBuf) =
      Except.ok 256 ∧ (256 : Nat) ≠ 512 :=
  ⟨by rfl, by omega⟩

/-! ## Housekeeping packet parsing (`HKRecv.ParseData`) -/

/-- One `HKPktDef` entry: byte offset and length, optional linear scale
(`lsb`, `constant`, defaulted to 1 and 0 as by the source's `try/except`),
optional single-bit index.  Of the `DType` information only the fact that
every multi-byte housekeeping field is a single little-endian unsigned
integer (`'<1H'`, `'<1I'`, `'<1Q'`, `'<4s'`) is needed; the float scale
constants are rendered as exact rationals. -/
structure HkField where
  offset : Nat
  length : Nat
  lsb : Rat
  constant : Rat
  bit : Option Nat

/-- A decoded housekeeping value: raw integer, scaled rational, or text. -/
inductive HkVal where
  | n : Nat → HkVal
  | q : Rat → HkVal
  | s : String → HkVal
deriving DecidableEq, Repr

/-- `bytes(...)` of exactly `width` bytes, or `struct.error`. -/
def unpackBytes (width : Nat) (d : List Nat) : Except PyErr (List Nat) :=
  if d.length = width then .ok d else .error .structError

/-- `bytes.decode('utf-8')` (RFC 3629): ASCII, or a well-formed 2-, 3- or
4-byte sequence with overlongs, surrogates and values above `0x10FFFF`
rejected, as CPython does. -/
def utf8Decode : List Nat → Option (List Char)
  | [] => some []
  | b :: rest =>
    if b < 0x80 then (utf8Decode rest).map (Char.ofNat b :: ·)
    else if b < 0xC2 then none
    else if b < 0xE0 then
      match rest with
      | b1 :: r2 =>
          if 0x80 ≤ b1 ∧ b1 < 0xC0 then
            (utf8Decode r2).map (Char.ofNat ((b - 0xC0) * 64 + (b1 - 0x80)) :: ·)
          else none
      | _ => none
    else if b < 0xF0 then
      match rest with
      | b1 :: b2 :: r2 =>
          if (if b = 0xE0 then 0xA0 else 0x80) ≤ b1 ∧
              b1 < (if b = 0xED then 0xA0 else 0xC0) ∧
              0x80 ≤ b2 ∧ b2 < 0xC0 then
            (utf8Decode r2).map
              (Char.ofNat ((b - 0xE0) * 4096 + (b1 - 0x80) * 64 + (b2 - 0x80)) :: ·)
          else none
      | _ => none
    else if b < 0xF5 then
      match rest with
      | b1 :: b2 :: b3 :: r2 =>
          if (if b = 0xF0 then 0x90 else 0x80) ≤ b1 ∧
              b1 < (if b = 0xF4 then 0x90 else 0xC0) ∧
              0x80 ≤ b2 ∧ b2 < 0xC0 ∧ 0x80 ≤ b3 ∧ b3 < 0xC0 then
            (utf8Decode r2).map
              (Char.ofNat ((b - 0xF0) * 262144 + (b1 - 0x80) * 4096 +
                (b2 - 0x80) * 64 + (b3 - 0x80)) :: ·)
          else none
      | _ => none
    else none

/-- Decoding of one `HKPktDef` field by `HKRecv.ParseData`: the slice
`data[offset:offset+length]`, then the special cases keyed on the field
name (`uid`/`fwtime` raw, `fwver` text reversed, `boardloc` dotted quad),
then the generic paths (1-byte indexing, optional bit extraction,
little-endian unpack with `r * lsb + constant`). -/
def parseField (buf : List Nat) (k : String) (f : HkField) : Except PyErr HkVal :=
  let d := pySlice buf f.offset (f.offset + f.length)
  if k = "uid" ∨ k = "fwtime" then
    (unpackLEn f.length d).map .n
  else if k = "fwver" then
    match unpackBytes f.length d with
    | .error e => .error e
    | .ok bs =>
        match utf8Decode bs with
        | none => .error .unicodeError
        | some cs => .ok (.s (String.mk cs.reverse))
  else if k = "boardloc" then
    (unpackLEn f.length d).map (fun r => .s (boardlocStr r))
  else if f.length = 1 then
    match buf[f.offset]? with
    | none => .error .indexError
    | some b =>
        match f.bit with
        | none => .ok (.n b)
        | some t => .ok (.n ((b >>> t) &&& 1))
  else
    (unpackLEn f.length d).map (fun r => .q ((r : Rat) * f.lsb + f.constant))

/-- `HKPktDef` in source order. -/
def HKPktDefL : List (String × HkField) :=
  [("tag", ⟨0, 1, 1, 0, none⟩),
   ("boardloc", ⟨2, 2, 1, 0, none⟩),
   ("hvmon0", ⟨4, 2, -1209361 / 1000000000, 0, none⟩),
   ("hvmon1", ⟨6, 2, -1209361 / 1000000000, 0, none⟩),
   ("hvmon2", ⟨8, 2, -1209361 / 1000000000, 0, none⟩),
   ("hvmon3", ⟨10, 2, -1209361 / 1000000000, 0, none⟩),
   ("hvimon0", ⟨12, 2, -38147 / 1000000000000, 65536 * (38147 / 1000000000000), none⟩),
   ("hvimon1", ⟨14, 2, -38147 / 1000000000000, 65536 * (38147 / 1000000000000), none⟩),
   ("hvimon2", ⟨16, 2, -38147 / 1000000000000, 65536 * (38147 / 1000000000000), none⟩),
   ("hvimon3", ⟨18, 2, -38147 / 1000000000000, 65536 * (38147 / 1000000000000), none⟩),
   ("rawhvmon", ⟨20, 2, -1209361 / 1000000000, 0, none⟩),
   ("v12mon", ⟨22, 2, 1907 / 100000000, 0, none⟩),
   ("v18mon", ⟨24, 2, 3814 / 100000000, 0, none⟩),
   ("v33mon", ⟨26, 2, 762 / 10000000, 0, none⟩),
   ("v37mon", ⟨28, 2, 762 / 10000000, 0, none⟩),
   ("i10mon", ⟨30, 2, 182 / 1000000, 0, none⟩),
   ("i18mon", ⟨32, 2, 378 / 10000000, 0, none⟩),
   ("i33mon", ⟨34, 2, 378 / 10000000, 0, none⟩),
   ("det_temp", ⟨36, 2, 1 / 4, 0, none⟩),
   ("fpga_temp", ⟨38, 2, 100 / 13004, -27315 / 100, none⟩),
   ("vccint", ⟨40, 2, 3 / 65536, 0, none⟩),
   ("vccaux", ⟨42, 2, 3 / 65536, 0, none⟩),
   ("uid", ⟨44, 8, 1, 0, none⟩),
   ("shutter_status", ⟨52, 1, 1, 0, some 0⟩),
   ("sensor_status", ⟨52, 1, 1, 0, some 1⟩),
   ("pcbrev", ⟨53, 1, 1, 0, some 0⟩),
   ("fwtime", ⟨56, 4, 1, 0, none⟩),
   ("fwver", ⟨60, 4, 1, 0, none⟩)]

/-- `HKRecv.ParseData` on one 64-byte housekeeping datagram: every
`HKPktDef` field decoded in order, aborting at the first failure (the
first Python exception). -/
def hkParseData (buf : List Nat) : Except PyErr (List (String × HkVal)) :=
  HKPktDefL.foldlM
    (fun acc kv => (parseField buf kv.1 kv.2).map (fun v => acc ++ [(kv.1, v)])) []

theorem except_error_bind {A B : Type} (e : PyErr) (f : A → Except PyErr B) :
    ((Except.error e : Except PyErr A) >>= f) = .error e := rfl

theorem except_map_error {A B : Type} (e : PyErr) (f : A → B) :
    (Except.error e : Except PyErr A).map f = .error e := rfl

theorem except_map_ok {A B : Type} (a : A) (f : A → B) :
    (Except.ok a : Except PyErr A).map f = .ok (f a) := rfl

theorem hk_foldl_error (buf : List Nat) :
    ∀ (l : List (String × HkField)) (acc : List (String × HkVal)),
      (∃ kv ∈ l, ∃ e, parseField buf kv.1 kv.2 = .error e) →
      ∃ e', l.foldlM
        (fun acc kv => (parseField buf kv.1 kv.2).map (fun v => acc ++ [(kv.1, v)]))
        acc = .error e' := by
  intro l
  induction l with
  | nil =>
      rintro acc ⟨kv, hkv, _⟩
      simp at hkv
  | cons hd tl ih =>
      rintro acc ⟨kv, hkv, e, he⟩
      rw [List.foldlM_cons]
      cases hp : parseField buf hd.1 hd.2 with
      | error e0 => exact ⟨e0, rfl⟩
      | ok v =>
          rcases List.mem_cons.mp hkv with rfl | htl
          · rw [hp] at he
            cases he
          · exact ih (acc ++ [(hd.1, v)]) ⟨kv, htl, e, he⟩

theorem hk_foldl_error_origin (buf : List Nat) :
    ∀ (l : List (String × HkField)) (acc : List (String × HkVal)) (e' : PyErr),
      l.foldlM
        (fun acc kv => (parseField buf kv.1 kv.2).map (fun v => acc ++ [(kv.1, v)]))
        acc = .error e' →
      ∃ kv ∈ l, parseField buf kv.1 kv.2 = .error e' := by
  intro l
  induction l with
  | nil =>
      intro acc e' h
      rw [List.foldlM_nil] at h
      cases h
  | cons hd tl ih =>
      intro acc e' h
      rw [List.foldlM_cons] at h
      cases hp : parseField buf hd.1 hd.2 with
      | error e0 =>
          rw [hp, except_map_error, except_error_bind] at h
          have he : e0 = e' := Except.error.inj h
          exact ⟨hd, List.mem_cons_self .., by rw [hp, he]⟩
      | ok v =>
          rw [hp, except_map_ok, except_ok_bind] at h
          obtain ⟨kv, hkv, hpe⟩ := ih (acc ++ [(hd.1, v)]) e' h
          exact ⟨kv, List.mem_cons_of_mem _ hkv, hpe⟩

theorem parseField_ne_truncated (buf : List Nat) (k : String) (f : HkField) :
    parseField buf k f ≠ .error .truncatedPacket := by
  intro hx
  simp only [parseField] at hx
  split at hx
  · rw [unpackLEn] at hx
    split at hx <;> cases hx
  · split at hx
    · rw [unpackBytes] at hx
      split at hx
      · rename_i x e heq
        cases hx
        split at heq <;> cases heq
      · rename_i x bs heq
        split at hx <;> cases hx
    · split at hx
      · rw [unpackLEn] at hx
        split at hx <;> cases hx
      · split at hx
        · split at hx
          · cases hx
          · split at hx <;> cases hx
        · rw [unpackLEn] at hx
          split at hx <;> cases hx

/-- C7 (amended): on every buffer shorter than the 64 bytes the
housekeeping schema requires, `HKRecv.ParseData` fails with an exception
raised by the underlying unpack/indexing primitives — never with a
`TruncatedPacket` error, which the code does not define — and, slices
being truncating and indexing checked, never reads out of bounds. -/
theorem hkParseData_short_errors (buf : List Nat) (h : buf.length < 64) :
    ∃ e, hkParseData buf = .error e ∧ e ≠ PyErr.truncatedPacket := by
  have hfw : ("fwver", (⟨60, 4, 1, 0, none⟩ : HkField)) ∈ HKPktDefL := by
    simp [HKPktDefL]
  have hlen4 : (pySlice buf 60 (60 + 4)).length ≠ 4 := by
    rw [length_pySlice]
    omega
  have hpf : parseField buf "fwver" ⟨60, 4, 1, 0, none⟩ = .error .structError := by
    simp only [parseField, unpackBytes]
    rw [if_pos trivial, if_neg hlen4]
    rw [if_neg (show ¬("fwver" = "uid" ∨ "fwver" = "fwtime") by decide)]
  obtain ⟨e', he'⟩ := hk_foldl_error buf HKPktDefL []
    ⟨("fwver", ⟨60, 4, 1, 0, none⟩), hfw, .structError, hpf⟩
  refine ⟨e', he', ?_⟩
  obtain ⟨kv, _, hkv⟩ := hk_foldl_error_origin buf HKPktDefL [] e' he'
  intro hcontra
  rw [hcontra] at hkv
  exact parseField_ne_truncated buf kv.1 kv.2 hkv

/-- Witness for the amended C7 on a 16-byte buffer. -/
theorem hkParseData_short_errors_witness :
    ∃ e, hkParseData (List.replicate 16 0) = .error e ∧ e ≠ PyErr.truncatedPacket :=
  hkParseData_short_errors (List.replicate 16 0)
    (by simp only [List.length_replicate]; omega)

set_option maxRecDepth 4000 in
/-- Counterexample to C7 as stated: on a 63-byte buffer the decode fails
with the modelled `struct.error` (from `struct.unpack('<4s', ...)` on the
truncated `fwver` slice), which is not a `TruncatedPacket` error — no such
error type exists in the code. -/
theorem hkParseData_not_truncatedPacket_counterexample :
    hkParseData (List.replicate 63 0) = Except.error PyErr.structError ∧
      PyErr.structError ≠ PyErr.truncatedPacket :=
  ⟨by rfl, by decide⟩

/-! ## Acquisition parameters command (`QuaboConfig.DaqParamsConfig`) -/

/-- The `DAQ_PARAMS` object: constructor fields plus the flash/stim
parameters installed by `set_flash_params`/`set_stim_params` (both off by
default). -/
structure DAQ_PARAMS where
  do_image : Bool
  image_us : Int
  image_8bit : Bool
  do_ph : Bool
  bl_subtract : Bool
  do_any_trigger : Bool := false
  do_group_ph_frames : Bool := false
  do_flash : Bool := false
  flash_rate : Int := 0
  flash_level : Int := 0
  flash_width : Int := 0
  do_stim : Bool := false
  stim_rate : Int := 0
  stim_level : Int := 0
deriving DecidableEq, Repr

/-- `QuaboConfig.make_cmd(cmd)`: a zeroed 64-byte buffer with the opcode
in byte 0. -/
def make_cmd (cmd : Nat) : List Nat := (List.replicate 64 0).set 0 cmd

/-- `bytearray` item assignment: `ValueError` unless `0 ≤ v ≤ 255`. -/
def byteSet (cmd : List Nat) (i : Nat) (v : Int) : Except PyErr (List Nat) :=
  if 0 ≤ v ∧ v ≤ 255 then .ok (cmd.set i v.toNat) else .error .valueError

/-- The `ACQ_MODE` bits accumulated by `DaqParamsConfig`:
`IMAGE_16BIT = 0x2`, `IMAGE_8BIT = 0x4`, `PULSE_HEIGHT = 0x1`,
`NO_BASELINE_SUBTRACT = 0x10`, OR-ed in source order. -/
def daqMode (params : DAQ_PARAMS) : Nat :=
  let mode := 0
  let mode := if params.do_image then mode ||| 0x2 else mode
  let mode := if params.image_8bit then mode ||| 0x4 else mode
  let mode := if params.do_ph then mode ||| 0x1 else mode
  if !params.bl_subtract then mode ||| 0x10 else mode

/-- `QuaboConfig.DaqParamsConfig(params)` up to the `send`: builds the
64-byte opcode-3 frame and, as in the source, decrements
`params.image_us` in place before storing it in bytes 4–5
(`cmd[4] = image_us % 256`, `cmd[5] = image_us // 256`, Python floor
division and non-negative remainder, i.e. `Int.emod`/`Int.ediv`).
Returns the frame and the mutated params. -/
def DaqParamsConfig (params : DAQ_PARAMS) :
    Except PyErr (List Nat × DAQ_PARAMS) := do
  let cmd := make_cmd 0x03
  let cmd ← byteSet cmd 2 (daqMode params)
  let params' := { params with image_us := params.image_us - 1 }
  let cmd ← byteSet cmd 4 (Int.emod params'.image_us 256)
  let cmd ← byteSet cmd 5 (Int.ediv params'.image_us 256)
  let cmd ← byteSet cmd 12 69
  let cmd ←
    if params'.do_flash then do
      let cmd ← byteSet cmd 22 params'.flash_rate
      let cmd ← byteSet cmd 24 params'.flash_level
      byteSet cmd 26 params'.flash_width
    else pure cmd
  let cmd ←
    if params'.do_stim then do
      let cmd ← byteSet cmd 14 1
      let cmd ← byteSet cmd 16 params'.stim_level
      byteSet cmd 18 params'.stim_rate
    else pure cmd
  .ok (cmd, params')

theorem byteSet_ok (cmd : List Nat) (i : Nat) (v : Int) (c : List Nat)
    (h : byteSet cmd i v = .ok c) : c = cmd.set i v.toNat := by
  rw [byteSet] at h
  split at h
  · cases h
    rfl
  · cases h

theorem except_bind_ok {A B : Type} (a : Except PyErr A) (f : A → Except PyErr B)
    (r : B) : (a >>= f) = .ok r ↔ ∃ x, a = .ok x ∧ f x = .ok r := by
  cases a with
  | error e =>
      constructor
      · intro h
        cases h
      · rintro ⟨x, hx, _⟩
        cases hx
  | ok x =>
      constructor
      · intro h
        exact ⟨x, rfl, h⟩
      · rintro ⟨y, hy, hf⟩
        cases hy
        exact hf

theorem nth_set_chain (l : List Nat) (i : Nat) (a : Nat) (js : Nat)
    (h : i ≠ js) : nth (l.set js a) i = nth l i :=
  nth_set_ne _ _ _ _ (fun hx => h hx.symm)

/-- C10: whenever `DaqParamsConfig` builds its 64-byte frame, bytes 4–5
carry `image_us − 1` (byte 4 the low byte, byte 5 the Python floor
quotient), not `image_us`; and the caller's params come back with
`image_us` decremented — the in-place mutation of the source. -/
theorem DaqParamsConfig_image_us (params : DAQ_PARAMS) (cmd : List Nat)
    (p' : DAQ_PARAMS) (h : DaqParamsConfig params = .ok (cmd, p')) :
    cmd.length = 64 ∧
    p' = { params with image_us := params.image_us - 1 } ∧
    nth cmd 4 = (Int.emod (params.image_us - 1) 256).toNat ∧
    nth cmd 5 = (Int.ediv (params.image_us - 1) 256).toNat := by
  simp only [DaqParamsConfig] at h
  rw [except_bind_ok] at h
  obtain ⟨c2, h2, h⟩ := h
  have e2 := byteSet_ok _ _ _ _ h2
  rw [except_bind_ok] at h
  obtain ⟨c4, h4, h⟩ := h
  have e4 := byteSet_ok _ _ _ _ h4
  rw [except_bind_ok] at h
  obtain ⟨c5, h5, h⟩ := h
  have e5 := byteSet_ok _ _ _ _ h5
  rw [except_bind_ok] at h
  obtain ⟨c12, h12, h⟩ := h
  have e12 := byteSet_ok _ _ _ _ h12
  have hlen2 : c2.length = 64 := by
    rw [e2]
    simp only [List.length_set, make_cmd, List.length_replicate]
  have hlen4 : c4.length = 64 := by
    rw [e4, List.length_set, hlen2]
  have hnth4 : nth c12 4 = (Int.emod (params.image_us - 1) 256).toNat := by
    rw [e12, nth_set_chain _ _ _ _ (by omega), e5, nth_set_chain _ _ _ _ (by omega),
      e4, nth_set_eq _ _ _ (by omega)]
  have hnth5 : nth c12 5 = (Int.ediv (params.image_us - 1) 256).toNat := by
    rw [e12, nth_set_chain _ _ _ _ (by omega), e5, nth_set_eq _ _ _ (by omega)]
  have hlen12 : c12.length = 64 := by
    rw [e12, List.length_set, e5, List.length_set, hlen4]
  clear h2 h4 h5 h12 e2 e4 e5 e12 hlen2 hlen4
  split at h
  all_goals (
    first
    | (rw [except_bind_ok] at h
       obtain ⟨d1, hd1, h⟩ := h
       rw [except_bind_ok] at h
       obtain ⟨d2, hd2, h⟩ := h
       rw [except_bind_ok] at h
       obtain ⟨d3, hd3, h⟩ := h
       have ed1 := byteSet_ok _ _ _ _ hd1
       have ed2 := byteSet_ok _ _ _ _ hd2
       have ed3 := byteSet_ok _ _ _ _ hd3
       subst ed1
       subst ed2
       subst ed3)
    | skip)
  all_goals (
    first
    | (rw [except_bind_ok] at h
       obtain ⟨y, hy, h⟩ := h
       have ey : _ = y := Except.ok.inj hy
       subst ey)
    | skip)
  all_goals split at h
  all_goals (
    first
    | (rw [except_bind_ok] at h
       obtain ⟨s1, hs1, h⟩ := h
       rw [except_bind_ok] at h
       obtain ⟨s2, hs2, h⟩ := h
       rw [except_bind_ok] at h
       obtain ⟨s3, hs3, h⟩ := h
       have es1 := byteSet_ok _ _ _ _ hs1
       have es2 := byteSet_ok _ _ _ _ hs2
       have es3 := byteSet_ok _ _ _ _ hs3
       subst es1
       subst es2
       subst es3)
    | skip)
  all_goals (
    first
    | (rw [except_bind_ok] at h
       obtain ⟨y2, hy2, h⟩ := h
       have ey2 : _ = y2 := Except.ok.inj hy2
       subst ey2)
    | skip)
  all_goals (
    have hpair := Except.ok.inj h
    rw [Prod.mk.injEq] at hpair
    obtain ⟨hcmd, hp⟩ := hpair
    subst hcmd
    subst hp
    refine ⟨by simp only [List.length_set, hlen12], rfl, ?_, ?_⟩ <;>
      (try simp only [nth_set_chain _ _ _ _ (by omega : (4 : Nat) ≠ 18),
        nth_set_chain _ _ _ _ (by omega : (4 : Nat) ≠ 16),
        nth_set_chain _ _ _ _ (by omega : (4 : Nat) ≠ 14),
        nth_set_chain _ _ _ _ (by omega : (4 : Nat) ≠ 26),
        nth_set_chain _ _ _ _ (by omega : (4 : Nat) ≠ 24),
        nth_set_chain _ _ _ _ (by omega : (4 : Nat) ≠ 22),
        nth_set_chain _ _ _ _ (by omega : (5 : Nat) ≠ 18),
        nth_set_chain _ _ _ _ (by omega : (5 : Nat) ≠ 16),
        nth_set_chain _ _ _ _ (by omega : (5 : Nat) ≠ 14),
        nth_set_chain _ _ _ _ (by omega : (5 : Nat) ≠ 26),
        nth_set_chain _ _ _ _ (by omega : (5 : Nat) ≠ 24),
        nth_set_chain _ _ _ _ (by omega : (5 : Nat) ≠ 22)]) <;>
      first
        | exact hnth4
        | exact hnth5)

/-- Concrete DAQ parameters: pulse-height mode, 1000 µs integration. -/
def c10params : DAQ_PARAMS :=
  ⟨false, 1000, false, true, true, false, false, false, 0, 0, 0, false, 0, 0⟩

/-- The frame `DaqParamsConfig` builds for `c10params`
(`999 = 3*256 + 231`). -/
def c10cmd : List Nat := ((((make_cmd 3).set 2 1).set 4 231).set 5 3).set 12 69

/-- The mutated params returned for `c10params`. -/
def c10res : DAQ_PARAMS := { c10params with image_us := 999 }

/-- Witness for C10 at `image_us = 1000`. -/
theorem DaqParamsConfig_image_us_witness :
    c10cmd.length = 64 ∧
    c10res = { c10params with image_us := c10params.image_us - 1 } ∧
    nth c10cmd 4 = (Int.emod (c10params.image_us - 1) 256).toNat ∧
    nth c10cmd 5 = (Int.ediv (c10params.image_us - 1) 256).toNat :=
  DaqParamsConfig_image_us c10params c10cmd c10res (by rfl)
